import Mathlib

/-!
Verification of the resume-RAG pipeline (src/main.py, src/app.py).

The Python source is shallowly embedded: every pure algorithm of the
repository (whitespace stripping, the header-pattern matcher compiled from
SECTION_PATTERNS, line splitting, section extraction, environment-variable
substitution in the configuration text, file-extension dispatch, the
argsort-based retrieval and the chat boundary) is translated into an
executable Lean definition.  External collaborators (the fitted TF-IDF
vectorizer together with sklearn's cosine_similarity, the python-docx text
extractor, and the hosted chat-completion client) are deterministic values
passed in as parameters: the vectorizer is abstracted as a function from a
query string to the list of similarity scores (one rational per indexed
section, in section order), which is exactly the interface the retrieval
code consumes.  Similarity scores are modelled in the ordered field of
rationals; the claims under study depend only on the ordering and equality
of scores, never on floating-point rounding.
-/

/-! ## Python string primitives -/

/-- The ASCII whitespace characters removed by Python str.strip() and
matched by the regex class backslash-s (space, tab, newline, carriage
return, vertical tab, form feed). -/
def isPySpace (c : Char) : Bool :=
  c = ' ' || c = '\t' || c = '\n' || c = '\r' || c = '\x0b' || c = '\x0c'

/-- Remove trailing whitespace from a character list. -/
def stripEnd : List Char → List Char
  | [] => []
  | c :: rest =>
    match stripEnd rest with
    | [] => if isPySpace c then [] else [c]
    | h :: t => c :: h :: t

/-- Python str.strip() on a character list: drop leading and trailing
whitespace. -/
def pyStripL (l : List Char) : List Char :=
  stripEnd (l.dropWhile isPySpace)

/-- Python str.strip() on strings. -/
def pyStrip (s : String) : String :=
  (pyStripL s.data).asString

/-- ASCII lowercase fold on a character list, modelling Python
str.lower() and the effect of re.IGNORECASE on the ASCII-only section
name patterns. -/
def lowerAsciiL (l : List Char) : List Char :=
  l.map Char.toLower

/-- ASCII lowercase fold on strings. -/
def lowerAscii (s : String) : String :=
  (lowerAsciiL s.data).asString

/-- Python text.split with separator newline: the list of maximal
newline-free chunks, keeping empty chunks, so that the empty string
splits to one empty chunk. -/
def splitLines : List Char → List (List Char)
  | [] => [[]]
  | c :: rest =>
    if c = '\n' then [] :: splitLines rest
    else
      match splitLines rest with
      | [] => [[c]]
      | h :: t => (c :: h) :: t

/-- Python '\n'.join on character-list lines. -/
def joinNL : List (List Char) → List Char
  | [] => []
  | [p] => p
  | p :: ps => p ++ '\n' :: joinNL ps

/-! ## The section-header matcher (ResumeParser.SECTION_PATTERNS)

The source compiles the twelve alternation patterns into one regex with
re.IGNORECASE and applies re.match to the stripped line; every
alternative is anchored on both sides, so the regex is a whole-line
match.  Eleven patterns are plain alternations of literal names; the
sixth additionally contains the non-literal alternative
certifications?\s*&\s*training (optional plural, arbitrary whitespace
around the ampersand), translated separately below. -/

/-- The literal alternatives of the twelve SECTION_PATTERNS entries of
ResumeParser, in source order. -/
def SECTION_PATTERNS : List (List String) :=
  [["summary", "professional summary", "profile", "objective"],
   ["experience", "work experience", "employment", "work history"],
   ["education", "academic background"],
   ["skills", "technical skills", "core competencies", "additional", "technical"],
   ["projects", "key projects"],
   ["certifications", "certificates", "licenses"],
   ["awards", "achievements", "honors"],
   ["publications", "research"],
   ["languages", "language proficiency"],
   ["interests", "hobbies"],
   ["references", "referees"],
   ["soft skills"]]

/-- Strip a literal pattern from the front of a character list, returning
the remainder on success. -/
def dropLit : List Char → List Char → Option (List Char)
  | [], l => some l
  | _, [] => none
  | p :: ps, c :: cs => if p = c then dropLit ps cs else none

/-- The non-literal regex alternative certifications?\s*&\s*training,
matched against a whole (already lowercased) line.  The optional plural
and the whitespace stars are deterministic here because neither an s nor
whitespace can begin the required ampersand. -/
def certTrainingMatch (l : List Char) : Bool :=
  match dropLit "certification".data l with
  | none => false
  | some rest =>
    let rest2 := match rest with
      | 's' :: r => r
      | r => r
    match rest2.dropWhile isPySpace with
    | '&' :: r => (r.dropWhile isPySpace) = "training".data
    | _ => false

/-- The compiled self.section_pattern applied to a whole line: lowercase
the line (re.IGNORECASE over ASCII names), then test the eleven literal
alternations and the certifications-and-training alternative. -/
def section_pattern_match (ls : List Char) : Bool :=
  let l := lowerAsciiL ls
  SECTION_PATTERNS.any (fun g => g.any (fun n => l = n.data)) || certTrainingMatch l

/-- A line is treated as a section header exactly when the compiled
pattern matches its stripped form (extract_sections strips before
matching). -/
def isHeaderLine (line : String) : Bool :=
  section_pattern_match (pyStripL line.data)

/-! ## Sections and ResumeParser.extract_sections -/

/-- The Section record of the data model (ResumeSection dataclass). -/
structure ResumeSection where
  title : String
  content : String
  start_idx : Nat
  end_idx : Nat
deriving DecidableEq, Repr

/-- Close the currently open section: the content is the newline join of
the accumulated stripped lines, stripped once more as in the source. -/
def mkSection (t : List Char) (content : List (List Char)) (s e : Nat) : ResumeSection :=
  ⟨t.asString, (pyStripL (joinNL content)).asString, s, e⟩

/-- The loop body of ResumeParser.extract_sections: walk the lines with
the open section (title and start index; the title is a matched stripped
line, hence nonempty, so Python truthiness of current_section is
modelled by Option). Blank lines and lines before the first header are
skipped; a matching line closes the open section and opens a new one;
the final open section is closed with end index equal to the number of
lines. -/
def extractLoop (n : Nat) : List (List Char) → Nat → Option (List Char × Nat) → List (List Char) → List ResumeSection
  | [], _, none, _ => []
  | [], _, some (t, start), content => [mkSection t content start n]
  | line :: rest, i, cur, content =>
    let ls := pyStripL line
    if section_pattern_match ls then
      (match cur with
       | some (t, start) => [mkSection t content start i]
       | none => []) ++ extractLoop n rest (i + 1) (some (ls, i)) []
    else if cur.isSome && !ls.isEmpty then
      extractLoop n rest (i + 1) cur (content ++ [ls])
    else
      extractLoop n rest (i + 1) cur content

/-- ResumeParser.extract_sections: split the text on newlines and run the
scanning loop. -/
def extract_sections (text : String) : List ResumeSection :=
  let lines := splitLines text.data
  extractLoop lines.length lines 0 none []

/-! ## ResumeParser.parse_file and the pathlib suffix -/

/-- Split a character list on slashes (for POSIX-style paths). -/
def splitSlash : List Char → List (List Char)
  | [] => [[]]
  | c :: rest =>
    if c = '/' then [] :: splitSlash rest
    else
      match splitSlash rest with
      | [] => [[c]]
      | h :: t => (c :: h) :: t

/-- The final path component, as pathlib.PurePosixPath.name: the last
component after splitting on slashes, ignoring empty components and
single-dot components. -/
def pathName (p : String) : String :=
  ((((splitSlash p.data).map List.asString).filter (fun s => s != "" && s != ".")).getLastD "")

/-- pathlib suffix: the substring of the name from its last dot, provided
that dot is neither the first nor the last character of the name;
otherwise the empty string. -/
def pySuffix (p : String) : String :=
  let name := (pathName p).data
  let revTail := name.reverse.takeWhile (fun c => c != '.')
  if name.contains '.' then
    let i := name.length - 1 - revTail.length
    if 0 < i ∧ i < name.length - 1 then ('.' :: revTail.reverse).asString else ""
  else ""

/-- ResumeParser.parse_file: lowercase the pathlib suffix; dispatch to the
external python-docx extractor (passed in as parse_docx) for the two Word
extensions, and raise ValueError otherwise. -/
def parse_file (parse_docx : String → String) (file_path : String) : Except String String :=
  let ext := lowerAscii (pySuffix file_path)
  if ext = ".docx" ∨ ext = ".doc" then
    .ok (parse_docx file_path)
  else
    .error ("Unsupported file format: " ++ ext ++ ". Only .docx/.doc files are supported.")

/-! ## The retrieval service (ResumeRAG)

The fitted TF-IDF index is abstracted as the function the retrieval code
actually consumes: for a query string, the row of cosine similarities
against the section vectors, one score per section in section order.
sklearn's TfidfVectorizer and cosine_similarity are deterministic, so
this is a plain function; scores live in the rationals, an ordered-field
abstraction of the floating-point scores that is faithful to every
ordering fact the claims mention. -/

/-- The retrieval-relevant state of a ResumeRAG instance: the ordered
Section sequence and, once a resume is loaded, the fitted index
(section_vectors plus vectorizer), abstracted as the
query-to-similarities function. -/
structure RAGState where
  sections : List ResumeSection
  index : Option (String → List ℚ)

/-- The state produced by ResumeRAG.__init__: no sections, and
section_vectors is None. -/
def initialState : RAGState :=
  ⟨[], none⟩

/-- The comparison used by np.argsort on the similarity row: ascending
score, with ties ordered by index.  numpy's default introsort is not
stable in general but degenerates to (stable) insertion sort on the
small arrays at issue here; ties are therefore modelled
index-ascending, which also makes the comparison a linear order, so the
sorted result does not depend on the sorting algorithm. -/
def simRel (sims : List ℚ) (i j : Nat) : Prop :=
  sims.getD i 0 < sims.getD j 0 ∨ (sims.getD i 0 = sims.getD j 0 ∧ i ≤ j)

instance (sims : List ℚ) : DecidableRel (simRel sims) := fun i j => by
  unfold simRel
  infer_instance

/-- np.argsort on the similarity row: the indices 0..n-1 sorted by
ascending score, ties by index. -/
def argsort (sims : List ℚ) : List Nat :=
  (List.range sims.length).mergeSort (fun i j => decide (simRel sims i j))

/-- The top_indices value of retrieve_relevant_sections:
np.argsort(similarities) reversed, truncated to top_k. -/
def top_indices (sims : List ℚ) (top_k : Nat) : List Nat :=
  ((argsort sims).reverse).take top_k

/-- ResumeRAG.retrieve_relevant_sections: fail when section_vectors is
None, otherwise rank the sections by the similarity row for the query.
The source indexes self.sections[i] with indices produced by argsort
over the similarity row; under the invariant that the row has one entry
per section the index is always in range, and the default value of getD
is never read. -/
def retrieve_relevant_sections (st : RAGState) (query : String) (top_k : Nat) :
    Except String (List ResumeSection) :=
  match st.index with
  | none => .error "No resume loaded. Call load_resume() first."
  | some simFn =>
    let sims := simFn query
    .ok ((top_indices sims top_k).map (fun i => st.sections.getD i ⟨"", "", 0, 0⟩))

/-- The section list produced by ResumeRAG.load_resume: the extracted
sections, upgraded to the single sentinel Section over the whole text
when extraction found nothing. -/
def load_resume_sections (text : String) : List ResumeSection :=
  let sections := extract_sections text
  if sections.isEmpty then
    [⟨"Full Resume", text, 0, text.length⟩]
  else sections

/-- The corpus handed to vectorizer.fit_transform: title and content of
each section joined with a space, in section order. -/
def sectionTexts (sections : List ResumeSection) : List String :=
  sections.map (fun s => s.title ++ " " ++ s.content)

/-- ResumeRAG.load_resume on already-extracted text: build the section
list and fit the index.  The parameter vectorize abstracts
fit_transform followed by transform-and-cosine: given the fitted corpus
it maps a query to its similarity row. -/
def load_resume (vectorize : List String → String → List ℚ) (text : String) : RAGState :=
  let sections := load_resume_sections text
  ⟨sections, some (vectorize (sectionTexts sections))⟩

/-! ## The answer path (ResumeRAG.answer_question, app.bot_response) -/

/-- The context block of answer_question: the retrieved sections rendered
and joined with blank lines. -/
def sectionContext (secs : List ResumeSection) : String :=
  String.intercalate "\n\n" (secs.map (fun s => "Section: " ++ s.title ++ "\n" ++ s.content))

/-- The user prompt assembled by answer_question. -/
def buildPrompt (context question : String) : String :=
  "Based on the following sections from a resume, answer the question.\n\nResume Sections:\n"
    ++ context ++ "\n\nQuestion: " ++ question
    ++ "\n\nProvide a clear, concise answer based only on the information in the resume sections above. If the information is not available, say so."

/-- ResumeRAG.answer_question: retrieve, build the prompt, delegate to
the external chat-completion client (passed in as a fallible function);
any client failure propagates out of this operation. -/
def answer_question (client : String → Except String String) (st : RAGState)
    (question : String) (top_k : Nat) : Except String String := do
  let secs ← retrieve_relevant_sections st question top_k
  client (buildPrompt (sectionContext secs) question)

/-- One message of the Gradio chat history (role and content). -/
structure ChatMsg where
  role : String
  content : String
deriving DecidableEq, Repr

/-- The last user message found by bot_response; when no user message
exists the Python variable stays None and str(None) is sent to the RAG
call. -/
def lastUserMsg (history : List ChatMsg) : String :=
  match history.reverse.find? (fun m => m.role == "user") with
  | some m => m.content
  | none => "None"

/-- app.bot_response: on a nonempty history, answer the last user message
with top_k fixed to 3; every exception of the answer path is caught and
appended as an apology string, so the function always returns a history. -/
def bot_response (client : String → Except String String) (st : RAGState)
    (history : List ChatMsg) : List ChatMsg :=
  if history.isEmpty then history
  else
    match answer_question client st (lastUserMsg history) 3 with
    | .ok answer => history ++ [⟨"assistant", answer⟩]
    | .error e => history ++ [⟨"assistant", "Sorry, I encountered an error: " ++ e⟩]

/-! ## Configuration loading (ResumeRAG._load_config)

The effective _load_config (the second definition shadows the first)
reads the file and substitutes every regex match of
dollar-brace NAME close-brace, where NAME is one or more non-close-brace
characters, by os.getenv(NAME, '') before parsing the YAML. -/

/-- re.sub of the placeholder pattern over a character list: scan left to
right; at a dollar-brace opening, a match needs at least one
non-close-brace character followed by a close brace, and is replaced by
the environment value (empty string when the variable is unset);
anywhere a match cannot start, one character is emitted and scanning
resumes at the next position. -/
def substEnvAux (env : String → Option String) : List Char → List Char
  | [] => []
  | '$' :: '{' :: rest2 =>
    let name := rest2.takeWhile (fun x => x != '\x7d')
    let rest3 := rest2.dropWhile (fun x => x != '\x7d')
    if rest3.head? = some '\x7d' && !name.isEmpty then
      ((env name.asString).getD "").data ++ substEnvAux env rest3.tail
    else '$' :: substEnvAux env ('{' :: rest2)
  | c :: rest => c :: substEnvAux env rest
termination_by l => l.length
decreasing_by
  · simp only [List.length_cons]
    have h1 : (List.dropWhile (fun x => x != '\x7d') rest2).length ≤ rest2.length :=
      (List.dropWhile_sublist _).length_le
    have h2 : (List.dropWhile (fun x => x != '\x7d') rest2).tail.length ≤
        (List.dropWhile (fun x => x != '\x7d') rest2).length :=
      (List.tail_sublist _).length_le
    omega
  · simp only [List.length_cons]
    omega
  · simp only [List.length_cons]
    omega

/-- The environment-variable substitution performed by _load_config on
the raw configuration text. -/
def substEnv (env : String → Option String) (s : String) : String :=
  (substEnvAux env s.data).asString

/-! ## Order properties of the argsort comparison -/

instance (sims : List ℚ) : IsTrans Nat (simRel sims) := by
  constructor
  intro a b c hab hbc
  rcases hab with h1 | ⟨h1, h1'⟩ <;> rcases hbc with h2 | ⟨h2, h2'⟩
  · exact Or.inl (h1.trans h2)
  · exact Or.inl (h2 ▸ h1)
  · exact Or.inl (h1 ▸ h2)
  · exact Or.inr ⟨h1.trans h2, h1'.trans h2'⟩

instance (sims : List ℚ) : IsTotal Nat (simRel sims) := by
  constructor
  intro a b
  rcases lt_trichotomy (sims.getD a 0) (sims.getD b 0) with h | h | h
  · exact Or.inl (Or.inl h)
  · rcases Nat.le_total a b with hle | hle
    · exact Or.inl (Or.inr ⟨h, hle⟩)
    · exact Or.inr (Or.inr ⟨h.symm, hle⟩)
  · exact Or.inr (Or.inl h)

instance (sims : List ℚ) : IsAntisymm Nat (simRel sims) := by
  constructor
  intro a b hab hba
  rcases hab with h1 | ⟨h1, h1'⟩ <;> rcases hba with h2 | ⟨h2, h2'⟩
  · exact absurd (h1.trans h2) (lt_irrefl _)
  · exact absurd h1 (h2 ▸ lt_irrefl _)
  · exact absurd h2 (h1 ▸ lt_irrefl _)
  · exact Nat.le_antisymm h1' h2'

/-! ## Claim-side definitions

These definitions transcribe the words of the specification sentences
under scrutiny, for comparison against the source-derived definitions
above. -/

/-- Spec reading for the catalog policy: the fixed finite catalog of
canonical section names together with the listed synonyms.  The catalog
is taken as generously as the claim allows: every literal alternative
appearing in SECTION_PATTERNS, plus the canonical one-space and
no-space spellings of the certifications-and-training synonym in both
numbers. -/
def fixedCatalog : List String :=
  SECTION_PATTERNS.flatten ++
    ["certifications & training", "certification & training",
     "certifications&training", "certification&training"]

/-- Spec reading of the header test: after trimming whitespace, the whole
line case-insensitively equals one of the fixed catalog entries. -/
def fixedCatalogHeader (line : String) : Bool :=
  fixedCatalog.any (fun n => lowerAsciiL (pyStripL line.data) = n.data)

/-- The content lines of a Section, recovered from its newline-joined
content string; an empty content denotes no lines. -/
def sectionContentLines (s : ResumeSection) : List String :=
  if s.content = "" then [] else (splitLines s.content.data).map List.asString

/-- The trimmed forms of the non-blank, non-header lines of a line
sequence, in order. -/
def keptLines (lines : List (List Char)) : List (List Char) :=
  (lines.map pyStripL).filter (fun ls => !(section_pattern_match ls) && !ls.isEmpty)

/-- The suffix of the line sequence starting at the first recognized
header line. -/
def afterFirstHeaderL (lines : List (List Char)) : List (List Char) :=
  lines.dropWhile (fun l => !(section_pattern_match (pyStripL l)))

/-- The reconstruction the claim asserts: the ORIGINAL, untrimmed
non-blank non-header lines from the first recognized header onward. -/
def claimReconstruction (lines : List (List Char)) : List (List Char) :=
  (afterFirstHeaderL lines).filter
    (fun l => !(section_pattern_match (pyStripL l)) && !(pyStripL l).isEmpty)

/-- Invariant of the accumulated content lines inside extract_sections: a
nonempty, newline-free piece that neither starts nor ends with
whitespace.  Every stripped non-blank line satisfies it, and it makes
the final join-strip-split round trip the identity. -/
def CleanPiece (p : List Char) : Prop :=
  p ≠ [] ∧ '\n' ∉ p ∧
    (∀ c, p.head? = some c → isPySpace c = false) ∧
    (∀ c, p.getLast? = some c → isPySpace c = false)

/-! ## Concrete fixtures used by witnesses and counterexamples -/

/-- First fixture section (spec example). -/
def secA : ResumeSection := ⟨"Experience", "Worked at Optum as a developer.", 0, 1⟩

/-- Second fixture section (spec example). -/
def secB : ResumeSection := ⟨"Education", "BSc Computer Science.", 1, 2⟩

/-- Third fixture section. -/
def secC : ResumeSection := ⟨"Skills", "python", 2, 3⟩

/-- A similarity row assigning both sections the same score for every
query (e.g. any query sharing no fitted vocabulary term with the corpus
has a zero query vector, so sklearn reports cosine similarity 0 for
every section). -/
def tieSims : String → List ℚ := fun _ => [0, 0]

/-- A loaded state whose two sections score equally against every query. -/
def tieState : RAGState := ⟨[secA, secB], some tieSims⟩

/-- A similarity row with three distinct scores. -/
def threeSims : String → List ℚ := fun _ => [0, 2, 1]

/-- A loaded state with three sections and distinct scores. -/
def threeState : RAGState :=
  ⟨[secA, secB, secC], some threeSims⟩

/-! ## Theorems -/

/-! ### Ranking facts about argsort and top_indices -/

theorem argsort_eq_insertionSort (sims : List ℚ) :
    argsort sims = List.insertionSort (simRel sims) (List.range sims.length) :=
  List.mergeSort_eq_insertionSort (simRel sims) (List.range sims.length)

theorem pairwise_argsort (sims : List ℚ) :
    List.Pairwise (simRel sims) (argsort sims) := by
  rw [argsort_eq_insertionSort]
  exact List.sorted_insertionSort (simRel sims) _

theorem nodup_argsort (sims : List ℚ) : (argsort sims).Nodup :=
  (List.mergeSort_perm (List.range sims.length) _).symm.nodup (List.nodup_range _)

theorem pairwise_top_indices (sims : List ℚ) (k : Nat) :
    List.Pairwise (fun i j => simRel sims j i ∧ i ≠ j) (top_indices sims k) := by
  have h1 : List.Pairwise (fun i j => simRel sims j i) ((argsort sims).reverse) :=
    List.pairwise_reverse.mpr (pairwise_argsort sims)
  have h2 : List.Pairwise (fun i j : Nat => i ≠ j) ((argsort sims).reverse) :=
    List.nodup_reverse.mpr (nodup_argsort sims)
  exact (h1.and h2).sublist (List.take_sublist k _)

theorem length_top_indices (sims : List ℚ) (k : Nat) :
    (top_indices sims k).length = min k sims.length := by
  simp [top_indices, argsort, List.length_mergeSort]

/-! ### The claims -/

/-- C8: for every query, invoking the Retriever on the freshly
constructed state, before any Index has been built (section_vectors is
None), fails with the not-indexed error instead of returning a result. -/
theorem claim8_not_indexed (q : String) (k : Nat) :
    retrieve_relevant_sections initialState q k =
      .error "No resume loaded. Call load_resume() first." := rfl

/-- C9: retrieval is deterministic — two retrieval calls against states
holding the same Section sequence and the same fitted index, with the
same query and the same K, return identical ordered result lists. -/
theorem claim9_deterministic (st st' : RAGState) (q : String) (k : Nat)
    (hs : st.sections = st'.sections) (hi : st.index = st'.index) :
    retrieve_relevant_sections st q k = retrieve_relevant_sections st' q k := by
  cases st
  cases st'
  cases hs
  cases hi
  rfl

/-- C9 witness: two invocations on the same loaded state with the same
query and K agree. -/
theorem claim9_witness :
    retrieve_relevant_sections tieState "Where did you work?" 3 =
      retrieve_relevant_sections tieState "Where did you work?" 3 :=
  claim9_deterministic tieState tieState "Where did you work?" 3 rfl rfl

/-- C1 counterexample: a loaded Index with two distinct sections whose
similarity scores are equal for the query (both 0, as happens for any
query disjoint from the fitted vocabulary); the claim requires the
result to keep the original Section order [secA, secB], but the code
returns them reversed. -/
theorem claim1_counterexample :
    tieState.sections = [secA, secB] ∧ secA ≠ secB ∧
    retrieve_relevant_sections tieState "Where did you work?" 2 = .ok [secB, secA] := by
  refine ⟨rfl, by decide, ?_⟩
  simp only [retrieve_relevant_sections, tieState, top_indices, argsort_eq_insertionSort]
  rfl

/-- C1 (amended): the Retriever returns the sections at the argsort
top indices, and those indices are ordered by non-increasing similarity
with equal-similarity sections appearing in REVERSE of their original
Section order (np.argsort sorts ascending with ties index-ascending, and
the subsequent reversal flips the ties). -/
theorem claim1_ranking (st : RAGState) (f : String → List ℚ) (q : String) (k : Nat)
    (res : List ResumeSection)
    (hidx : st.index = some f)
    (hres : retrieve_relevant_sections st q k = .ok res) :
    res = (top_indices (f q) k).map (fun i => st.sections.getD i ⟨"", "", 0, 0⟩) ∧
    List.Pairwise
      (fun i j => (f q).getD j 0 < (f q).getD i 0 ∨
        ((f q).getD i 0 = (f q).getD j 0 ∧ j < i))
      (top_indices (f q) k) := by
  constructor
  · unfold retrieve_relevant_sections at hres
    rw [hidx] at hres
    simpa using hres.symm
  · refine (pairwise_top_indices (f q) k).imp ?_
    rintro i j ⟨hji | ⟨heq, hle⟩, hne⟩
    · exact Or.inl hji
    · exact Or.inr ⟨heq.symm, Nat.lt_of_le_of_ne hle hne.symm⟩

/-- C1 witness: on the tied two-section state the amended ordering holds
of the returned list [secB, secA]. -/
theorem claim1_witness :
    ([secB, secA] : List ResumeSection) =
      (top_indices (tieSims "Where did you work?") 2).map
        (fun i => tieState.sections.getD i ⟨"", "", 0, 0⟩) ∧
    List.Pairwise
      (fun i j => (tieSims "Where did you work?").getD j 0 < (tieSims "Where did you work?").getD i 0 ∨
        ((tieSims "Where did you work?").getD i 0 = (tieSims "Where did you work?").getD j 0 ∧ j < i))
      (top_indices (tieSims "Where did you work?") 2) :=
  claim1_ranking tieState tieSims "Where did you work?" 2 [secB, secA] rfl
    (by simp only [retrieve_relevant_sections, tieState, top_indices, argsort_eq_insertionSort]
        rfl)

/-- C6: when an Index with a similarity row of one score per section is
loaded, the Retriever's result list has length exactly min(K, number of
sections). -/
theorem claim6_topk_length (st : RAGState) (f : String → List ℚ) (q : String) (k : Nat)
    (res : List ResumeSection)
    (hidx : st.index = some f)
    (hrow : (f q).length = st.sections.length)
    (hres : retrieve_relevant_sections st q k = .ok res) :
    res.length = min k st.sections.length := by
  unfold retrieve_relevant_sections at hres
  rw [hidx] at hres
  simp only [Except.ok.injEq] at hres
  rw [← hres, List.length_map, length_top_indices, hrow]

/-- C6 witness: requesting K = 5 against an Index with 3 sections returns
exactly 3 results (the spec's example). -/
theorem claim6_witness :
    ([secB, secC, secA] : List ResumeSection).length = min 5 threeState.sections.length :=
  claim6_topk_length threeState threeSims "What are your skills?" 5 [secB, secC, secA] rfl rfl
    (by simp only [retrieve_relevant_sections, threeState, top_indices, argsort_eq_insertionSort,
          Except.ok.injEq]
        decide)

/-- C2 counterexample: extraction of a PDF file DOES fail with the
unsupported-format error, contradicting the claim that PDF extensions
are recognized. -/
theorem claim2_counterexample :
    parse_file (fun _ => "") "resume.pdf" =
      .error "Unsupported file format: .pdf. Only .docx/.doc files are supported." := rfl

/-- C2 (amended): for every input file path, parse_file raises its
unsupported-format error if and only if the lowercased file extension is
neither .docx nor .doc; in particular PDF files are rejected, not
parsed. -/
theorem claim2_amended (docx : String → String) (p : String) :
    (parse_file docx p).isOk = false ↔
      (lowerAscii (pySuffix p) ≠ ".docx" ∧ lowerAscii (pySuffix p) ≠ ".doc") := by
  unfold parse_file
  by_cases h : lowerAscii (pySuffix p) = ".docx" ∨ lowerAscii (pySuffix p) = ".doc"
  · rw [if_pos h]
    simp only [Except.isOk]
    constructor
    · intro hfalse
      cases hfalse
    · intro ⟨h1, h2⟩
      rcases h with h | h
      · exact absurd h h1
      · exact absurd h h2
  · rw [if_neg h]
    simp only [Except.isOk]
    constructor
    · intro _
      exact ⟨fun h1 => h (Or.inl h1), fun h2 => h (Or.inr h2)⟩
    · intro _
      rfl

/-- C4 counterexample: the line "Certifications  &  Training" (two
spaces around the ampersand) is treated as a section header by the
compiled pattern, yet its trimmed lowercase form equals no entry of the
fixed catalog of names and listed synonyms. -/
theorem claim4_counterexample :
    isHeaderLine "Certifications  &  Training" = true ∧
    fixedCatalogHeader "Certifications  &  Training" = false := by
  constructor
  · decide
  · decide

/-- C4 (amended): a line is treated as a section header if and only if,
after trimming whitespace, it case-insensitively equals one of the
fixed literal catalog names, OR matches the certifications-and-training
pattern family (optional plural, arbitrary whitespace around the
ampersand); the latter family is genuinely infinite, so the policy is
not a fixed-catalog whole-line match. -/
theorem claim4_amended (line : String) :
    isHeaderLine line = true ↔
      (lowerAsciiL (pyStripL line.data) ∈ SECTION_PATTERNS.flatten.map String.data ∨
        certTrainingMatch (lowerAsciiL (pyStripL line.data)) = true) := by
  unfold isHeaderLine section_pattern_match
  simp only [Bool.or_eq_true, List.any_eq_true, decide_eq_true_eq, List.mem_map,
    List.mem_flatten]
  constructor
  · rintro (⟨g, hg, n, hn, he⟩ | hc)
    · exact Or.inl ⟨n, ⟨g, hg, hn⟩, he.symm⟩
    · exact Or.inr hc
  · rintro (⟨n, ⟨g, hg, hn⟩, he⟩ | hc)
    · exact Or.inl ⟨g, hg, n, hn, he.symm⟩
    · exact Or.inr hc

/-- With no open section, a scan over header-free lines produces no
sections (the pre-header prefix is discarded). -/
theorem extractLoop_no_header (n : Nat) (rest : List (List Char)) (i : Nat)
    (content : List (List Char))
    (h : ∀ l ∈ rest, section_pattern_match (pyStripL l) = false) :
    extractLoop n rest i none content = [] := by
  induction rest generalizing i content with
  | nil => rfl
  | cons line rest ih =>
    have hl : section_pattern_match (pyStripL line) = false := h line (by simp)
    simp only [extractLoop, hl, Bool.false_eq_true, if_false, Option.isSome_none,
      Bool.false_and]
    exact ih _ _ (fun l hl' => h l (by simp [hl']))

/-- A document in which the Splitter recognizes no header extracts to the
empty section list. -/
theorem extract_sections_no_header (text : String)
    (h : ∀ l ∈ splitLines text.data, section_pattern_match (pyStripL l) = false) :
    extract_sections text = [] :=
  extractLoop_no_header _ _ _ _ h

theorem top_indices_singleton (s : ℚ) (k : Nat) (hk : 1 ≤ k) :
    top_indices [s] k = [0] := by
  have h0 : argsort [s] = [0] := by
    rw [argsort_eq_insertionSort]
    rfl
  unfold top_indices
  rw [h0]
  cases k with
  | zero => omega
  | succ k => simp

/-- C5: for every document with zero recognized headers (the empty
document included), loading the resume yields exactly one Section whose
title is the sentinel "Full Resume" and whose content is the whole
text, and retrieval for any query (any positive K, any one-entry
similarity row) returns exactly that Section. -/
theorem claim5_sentinel (text : String) (vectorize : List String → String → List ℚ)
    (q : String) (k : Nat)
    (hnh : ∀ l ∈ splitLines text.data, section_pattern_match (pyStripL l) = false)
    (hrow : (vectorize (sectionTexts (load_resume_sections text)) q).length = 1)
    (hk : 1 ≤ k) :
    load_resume_sections text = [⟨"Full Resume", text, 0, text.length⟩] ∧
    retrieve_relevant_sections (load_resume vectorize text) q k =
      .ok [⟨"Full Resume", text, 0, text.length⟩] := by
  have hs : load_resume_sections text = [⟨"Full Resume", text, 0, text.length⟩] := by
    unfold load_resume_sections
    rw [extract_sections_no_header text hnh]
    rfl
  refine ⟨hs, ?_⟩
  obtain ⟨s, hsim⟩ := List.length_eq_one.mp hrow
  rw [hs] at hsim
  unfold load_resume retrieve_relevant_sections
  simp only [hs, hsim, top_indices_singleton s k hk, List.map_cons, List.map_nil,
    List.getD_cons_zero]

/-- C5 witness: the empty document loads to the single sentinel Section
and any query retrieves it. -/
theorem claim5_witness :
    load_resume_sections "" = [⟨"Full Resume", "", 0, 0⟩] ∧
    retrieve_relevant_sections (load_resume (fun _ _ => [0]) "") "anything" 3 =
      .ok [⟨"Full Resume", "", 0, 0⟩] :=
  claim5_sentinel "" (fun _ _ => [0]) "anything" 3 (by decide) rfl (by decide)

/-- C7: when the external generation collaborator fails (every call
returns an error, as under network, auth or quota failure), the chat
boundary bot_response still returns normally, appending the
human-readable apology string carrying the collaborator's message
instead of propagating the failure. -/
theorem claim7_error_string (client : String → Except String String) (st : RAGState)
    (f : String → List ℚ) (history : List ChatMsg) (e : String)
    (hne : history ≠ [])
    (hidx : st.index = some f)
    (hclient : ∀ p, client p = .error e) :
    bot_response client st history =
      history ++ [⟨"assistant", "Sorry, I encountered an error: " ++ e⟩] := by
  unfold bot_response
  rw [if_neg (by simpa using hne)]
  unfold answer_question retrieve_relevant_sections
  rw [hidx]
  simp only [hclient]
  rfl

/-- C7 witness: a failing collaborator (HTTP 401) turns into an apology
message appended to the chat history. -/
theorem claim7_witness :
    bot_response (fun _ => .error "401 Client Error: Unauthorized") tieState
        [⟨"user", "hi"⟩] =
      [⟨"user", "hi"⟩] ++
        [⟨"assistant", "Sorry, I encountered an error: " ++ "401 Client Error: Unauthorized"⟩] :=
  claim7_error_string (fun _ => .error "401 Client Error: Unauthorized") tieState tieSims
    [⟨"user", "hi"⟩] "401 Client Error: Unauthorized" (by decide) rfl (fun _ => rfl)

/-! ### Configuration substitution (C10) -/

theorem substEnvAux_cons_ne (env : String → Option String) (c : Char) (rest : List Char)
    (hc : c ≠ '$') :
    substEnvAux env (c :: rest) = c :: substEnvAux env rest := by
  rw [substEnvAux.eq_def]
  split
  · rename_i heq
    simp at heq
  · rename_i rest2 heq
    rw [List.cons_eq_cons] at heq
    exact absurd heq.1 hc
  · rename_i c2 rest2 hno heq
    rw [List.cons_eq_cons] at heq
    rw [heq.1, heq.2]

theorem substEnvAux_append_no_dollar (env : String → Option String) (l1 l2 : List Char)
    (h : '$' ∉ l1) :
    substEnvAux env (l1 ++ l2) = l1 ++ substEnvAux env l2 := by
  induction l1 with
  | nil => rfl
  | cons c rest ih =>
    have hc : c ≠ '$' := fun hce => h (hce ▸ List.mem_cons_self _ _)
    rw [List.cons_append, substEnvAux_cons_ne env c _ hc,
      ih (fun hm => h (List.mem_cons_of_mem _ hm))]
    rfl

theorem takeWhile_until_brace (name post : List Char) (hbr : '\x7d' ∉ name) :
    (name ++ '\x7d' :: post).takeWhile (fun x => x != '\x7d') = name := by
  induction name with
  | nil => simp [List.takeWhile_cons]
  | cons c rest ih =>
    have hcb : (c != '\x7d') = true := by
      simp only [bne_iff_ne, ne_eq]
      intro hx
      exact hbr (hx ▸ List.mem_cons_self _ _)
    simp only [List.cons_append, List.takeWhile_cons, hcb, if_true]
    rw [ih (fun hm => hbr (List.mem_cons_of_mem _ hm))]

theorem dropWhile_until_brace (name post : List Char) (hbr : '\x7d' ∉ name) :
    (name ++ '\x7d' :: post).dropWhile (fun x => x != '\x7d') = '\x7d' :: post := by
  induction name with
  | nil => simp [List.dropWhile_cons]
  | cons c rest ih =>
    have hcb : (c != '\x7d') = true := by
      simp only [bne_iff_ne, ne_eq]
      intro hx
      exact hbr (hx ▸ List.mem_cons_self _ _)
    simp only [List.cons_append, List.dropWhile_cons, hcb, if_true]
    exact ih (fun hm => hbr (List.mem_cons_of_mem _ hm))

theorem substEnvAux_placeholder (env : String → Option String) (name post : List Char)
    (hne : name ≠ []) (hbr : '\x7d' ∉ name) :
    substEnvAux env ('$' :: '{' :: (name ++ '\x7d' :: post)) =
      ((env name.asString).getD "").data ++ substEnvAux env post := by
  simp only [substEnvAux, takeWhile_until_brace name post hbr,
    dropWhile_until_brace name post hbr]
  have hemp : name.isEmpty = false := by
    cases name with
    | nil => exact absurd rfl hne
    | cons c r => rfl
  simp [hemp]

theorem asString_append (l1 l2 : List Char) :
    (l1 ++ l2).asString = l1.asString ++ l2.asString := rfl

theorem asString_data (s : String) : s.data.asString = s := rfl

/-- C10: during configuration loading, a leading-most placeholder of the
form dollar-brace NAME close-brace (nonempty NAME without a closing
brace, no dollar sign earlier in the text) is replaced by the value of
the environment variable NAME, with the empty string substituted when
the variable is unset, and substitution continues in the remainder of
the text; the placeholder is neither kept verbatim nor reported as an
error. -/
theorem claim10_env_substitution (env : String → Option String) (pre name post : String)
    (hpre : '$' ∉ pre.data)
    (hname : name.data ≠ [])
    (hbr : '\x7d' ∉ name.data) :
    substEnv env (pre ++ "$\x7b" ++ name ++ "\x7d" ++ post) =
      pre ++ ((env name).getD "") ++ substEnv env post := by
  unfold substEnv
  have hdata : (pre ++ "$\x7b" ++ name ++ "\x7d" ++ post).data =
      pre.data ++ ('$' :: '{' :: (name.data ++ '\x7d' :: post.data)) := by
    simp only [String.data_append, List.append_assoc]
    rfl
  rw [hdata, substEnvAux_append_no_dollar env _ _ hpre,
    substEnvAux_placeholder env name.data post.data hname hbr,
    asString_append, asString_append, asString_data, asString_data]
  simp [asString_data, String.append_assoc]

/-- C10 witness: a set variable is substituted by its value and an unset
variable is handled in the remaining text. -/
theorem claim10_witness :
    substEnv (fun n => if n = "HF_TOKEN" then some "hf_abc" else none)
        ("params: " ++ "$\x7b" ++ "HF_TOKEN" ++ "\x7d" ++ " end") =
      "params: " ++ "hf_abc" ++
        substEnv (fun n => if n = "HF_TOKEN" then some "hf_abc" else none) " end" :=
  claim10_env_substitution (fun n => if n = "HF_TOKEN" then some "hf_abc" else none)
    "params: " "HF_TOKEN" " end" (by decide) (by decide) (by decide)

/-! ### Line splitting and stripping facts (towards C3) -/

theorem splitLines_ne_nil (l : List Char) : splitLines l ≠ [] := by
  cases l with
  | nil => simp [splitLines]
  | cons c rest =>
    simp only [splitLines]
    split
    · simp
    · split
      · simp
      · simp

theorem splitLines_nl_free (l : List Char) : ∀ p ∈ splitLines l, '\n' ∉ p := by
  induction l with
  | nil =>
    intro p hp hmem
    simp [splitLines] at hp
    subst hp
    simp at hmem
  | cons c rest ih =>
    intro p hp
    by_cases hc : c = '\n'
    · rw [splitLines, if_pos hc] at hp
      rcases List.mem_cons.mp hp with h | h
      · subst h
        simp
      · exact ih p h
    · rw [splitLines, if_neg hc] at hp
      obtain ⟨h0, t, hht⟩ : ∃ h0 t, splitLines rest = h0 :: t := by
        cases hsl : splitLines rest with
        | nil => exact absurd hsl (splitLines_ne_nil rest)
        | cons h0 t => exact ⟨h0, t, rfl⟩
      rw [hht] at hp
      rcases List.mem_cons.mp hp with h | h
      · subst h
        intro hmem
        rcases List.mem_cons.mp hmem with h | h
        · exact hc h.symm
        · exact ih h0 (hht ▸ List.mem_cons_self _ _) h
      · exact ih p (hht ▸ List.mem_cons_of_mem _ h)

theorem splitLines_append (p l : List Char) (hp : '\n' ∉ p) (h0 : List Char)
    (t : List (List Char)) (hl : splitLines l = h0 :: t) :
    splitLines (p ++ l) = (p ++ h0) :: t := by
  induction p with
  | nil => simpa using hl
  | cons c pr ih =>
    have hc : c ≠ '\n' := fun hce => hp (hce ▸ List.mem_cons_self _ _)
    have ihr := ih (fun hm => hp (List.mem_cons_of_mem _ hm))
    rw [List.cons_append, splitLines, if_neg hc, ihr]
    rfl

theorem splitLines_single (p : List Char) (hp : '\n' ∉ p) : splitLines p = [p] := by
  have h := splitLines_append p [] hp [] [] rfl
  simpa using h

theorem joinNL_cons_cons (p q : List Char) (t : List (List Char)) :
    joinNL (p :: q :: t) = p ++ '\n' :: joinNL (q :: t) := rfl

theorem splitLines_joinNL (parts : List (List Char)) (hne : parts ≠ [])
    (hnl : ∀ p ∈ parts, '\n' ∉ p) :
    splitLines (joinNL parts) = parts := by
  induction parts with
  | nil => exact absurd rfl hne
  | cons p ps ih =>
    cases ps with
    | nil => exact splitLines_single p (hnl p (by simp))
    | cons q t =>
      have hrec : splitLines (joinNL (q :: t)) = q :: t :=
        ih (by simp) (fun x hx => hnl x (by simp [hx]))
      have hstep : splitLines ('\n' :: joinNL (q :: t)) = [] :: q :: t := by
        rw [splitLines, if_pos rfl, hrec]
      rw [joinNL_cons_cons,
        splitLines_append p _ (hnl p (by simp)) [] (q :: t) hstep]
      simp

theorem stripEnd_getLast (l : List Char) :
    ∀ c, (stripEnd l).getLast? = some c → isPySpace c = false := by
  induction l with
  | nil =>
    intro c h
    simp [stripEnd] at h
  | cons a rest ih =>
    intro c h
    rw [stripEnd] at h
    rcases hres : stripEnd rest with _ | ⟨h0, t⟩
    · rw [hres] at h
      by_cases ha : isPySpace a = true
      · rw [if_pos ha] at h
        simp at h
      · rw [if_neg ha] at h
        simp at h
        rw [← h]
        exact Bool.not_eq_true _ ▸ (by simpa using ha)
    · rw [hres] at h
      rw [List.getLast?_cons_cons] at h
      exact ih c (hres ▸ h)

theorem stripEnd_head (l : List Char) :
    ∀ c, (stripEnd l).head? = some c → l.head? = some c := by
  cases l with
  | nil => intro c h; simp [stripEnd] at h
  | cons a rest =>
    intro c h
    rw [stripEnd] at h
    rcases hres : stripEnd rest with _ | ⟨h0, t⟩
    · rw [hres] at h
      by_cases ha : isPySpace a = true
      · rw [if_pos ha] at h
        simp at h
      · rw [if_neg ha] at h
        simpa using h
    · rw [hres] at h
      simpa using h

theorem stripEnd_subset (l : List Char) : ∀ c ∈ stripEnd l, c ∈ l := by
  induction l with
  | nil => intro c h; simp [stripEnd] at h
  | cons a rest ih =>
    intro c h
    rw [stripEnd] at h
    rcases hres : stripEnd rest with _ | ⟨h0, t⟩
    · rw [hres] at h
      by_cases ha : isPySpace a = true
      · rw [if_pos ha] at h
        simp at h
      · rw [if_neg ha] at h
        simp at h
        simp [h]
    · rw [hres] at h
      rcases List.mem_cons.mp h with h | h
      · simp [h]
      · exact List.mem_cons_of_mem _ (ih c (hres ▸ h))

theorem stripEnd_of_getLast_not_space (l : List Char)
    (h : ∀ c, l.getLast? = some c → isPySpace c = false) :
    stripEnd l = l := by
  induction l with
  | nil => rfl
  | cons a rest ih =>
    cases rest with
    | nil =>
      have ha := h a rfl
      rw [stripEnd]
      simp [stripEnd, ha]
    | cons b rest' =>
      have hr : stripEnd (b :: rest') = b :: rest' := by
        apply ih
        intro c hc
        exact h c (by rw [List.getLast?_cons_cons]; exact hc)
      rw [stripEnd, hr]

theorem dropWhile_eq_self_of_head (m : List Char)
    (h : ∀ c, m.head? = some c → isPySpace c = false) :
    m.dropWhile isPySpace = m := by
  cases m with
  | nil => rfl
  | cons a rest =>
    have := h a rfl
    rw [List.dropWhile_cons, this]
    simp

theorem head_dropWhile_isPySpace (l : List Char) :
    ∀ c, ((l.dropWhile isPySpace).head? = some c) → isPySpace c = false := by
  induction l with
  | nil => intro c h; simp at h
  | cons a rest ih =>
    intro c h
    by_cases ha : isPySpace a = true
    · rw [List.dropWhile_cons, if_pos ha] at h
      exact ih c h
    · rw [List.dropWhile_cons, if_neg ha] at h
      simp at h
      rw [← h]
      simpa using ha

theorem pyStripL_head (l : List Char) :
    ∀ c, ((pyStripL l).head? = some c) → isPySpace c = false := by
  intro c h
  exact head_dropWhile_isPySpace l c (stripEnd_head _ c h)

theorem pyStripL_getLast (l : List Char) :
    ∀ c, ((pyStripL l).getLast? = some c) → isPySpace c = false :=
  fun c h => stripEnd_getLast _ c h

theorem pyStripL_subset (l : List Char) : ∀ c ∈ pyStripL l, c ∈ l := by
  intro c h
  exact (List.dropWhile_sublist isPySpace (l := l)).subset (stripEnd_subset _ c h)

theorem pyStripL_eq_self (m : List Char)
    (hh : ∀ c, m.head? = some c → isPySpace c = false)
    (hl : ∀ c, m.getLast? = some c → isPySpace c = false) :
    pyStripL m = m := by
  unfold pyStripL
  rw [dropWhile_eq_self_of_head m hh]
  exact stripEnd_of_getLast_not_space m hl

theorem cleanPiece_pyStripL (line : List Char) (hnl : '\n' ∉ line)
    (hne : pyStripL line ≠ []) : CleanPiece (pyStripL line) :=
  ⟨hne, fun hm => hnl (pyStripL_subset line _ hm), pyStripL_head line, pyStripL_getLast line⟩

theorem joinNL_cons_ne_nil (p : List Char) (ps : List (List Char)) (hp : p ≠ []) :
    joinNL (p :: ps) ≠ [] := by
  cases ps with
  | nil => simpa [joinNL]
  | cons q t =>
    rw [joinNL_cons_cons]
    simp

theorem joinNL_head_clean (parts : List (List Char))
    (h : ∀ p ∈ parts, CleanPiece p) :
    ∀ c, (joinNL parts).head? = some c → isPySpace c = false := by
  intro c hc
  cases parts with
  | nil => simp [joinNL] at hc
  | cons p ps =>
    have hp : CleanPiece p := h p (by simp)
    have hhead : (joinNL (p :: ps)).head? = p.head? := by
      cases ps with
      | nil => rfl
      | cons q t =>
        rw [joinNL_cons_cons]
        cases hcp : p with
        | nil => exact absurd hcp hp.1
        | cons a r => rfl
    rw [hhead] at hc
    exact hp.2.2.1 c hc

theorem joinNL_getLast_clean (parts : List (List Char))
    (h : ∀ p ∈ parts, CleanPiece p) :
    ∀ c, (joinNL parts).getLast? = some c → isPySpace c = false := by
  induction parts with
  | nil => intro c hc; simp [joinNL] at hc
  | cons p ps ih =>
    intro c hc
    cases ps with
    | nil => exact (h p (by simp)).2.2.2 c hc
    | cons q t =>
      rw [joinNL_cons_cons, List.getLast?_append] at hc
      have hq : CleanPiece q := h q (by simp)
      have hne : joinNL (q :: t) ≠ [] := joinNL_cons_ne_nil q t hq.1
      have hlast : ('\n' :: joinNL (q :: t)).getLast? = (joinNL (q :: t)).getLast? := by
        cases hj : joinNL (q :: t) with
        | nil => exact absurd hj hne
        | cons x r => rw [List.getLast?_cons_cons]
      have hsome : ∃ d, (joinNL (q :: t)).getLast? = some d := by
        cases hg : (joinNL (q :: t)).getLast? with
        | none => exact absurd (List.getLast?_eq_none_iff.mp hg) hne
        | some d => exact ⟨d, rfl⟩
      obtain ⟨d, hd⟩ := hsome
      rw [hlast, hd] at hc
      simp only [Option.or_some, Option.some.injEq] at hc
      exact ih (fun x hx => h x (List.mem_cons_of_mem _ hx)) c (by rw [hd, hc])

theorem joinNL_nl_free_parts (parts : List (List Char))
    (h : ∀ p ∈ parts, CleanPiece p) : ∀ p ∈ parts, '\n' ∉ p :=
  fun p hp => (h p hp).2.1

theorem sectionContentLines_mkSection (t : List Char) (content : List (List Char))
    (s e : Nat) (h : ∀ p ∈ content, CleanPiece p) :
    sectionContentLines (mkSection t content s e) = content.map List.asString := by
  cases content with
  | nil =>
    have h0 : ((pyStripL (joinNL [])).asString) = "" := rfl
    unfold sectionContentLines mkSection
    rw [h0]
    simp
  | cons p ps =>
    have hstrip : pyStripL (joinNL (p :: ps)) = joinNL (p :: ps) :=
      pyStripL_eq_self _ (joinNL_head_clean _ h) (joinNL_getLast_clean _ h)
    have hne : joinNL (p :: ps) ≠ [] := joinNL_cons_ne_nil p ps (h p (by simp)).1
    have hne' : ((joinNL (p :: ps)).asString) ≠ "" := by
      intro hc
      apply hne
      have hd : ((joinNL (p :: ps)).asString).data = ("" : String).data := by rw [hc]
      simpa using hd
    unfold sectionContentLines mkSection
    rw [hstrip]
    simp only [hne', if_false]
    rw [show ((joinNL (p :: ps)).asString).data = joinNL (p :: ps) from rfl,
      splitLines_joinNL (p :: ps) (by simp) (joinNL_nl_free_parts _ h)]

/-- Scanning with an open section: the content lines produced are the
accumulated pieces followed by the trimmed non-blank non-header lines of
the remaining input, in order. -/
theorem extractLoop_some_content (n : Nat) (rest : List (List Char)) (i : Nat)
    (t : List Char) (start : Nat) (content : List (List Char))
    (hnl : ∀ l ∈ rest, '\n' ∉ l)
    (hcl : ∀ p ∈ content, CleanPiece p) :
    (extractLoop n rest i (some (t, start)) content).flatMap sectionContentLines =
      content.map List.asString ++ (keptLines rest).map List.asString := by
  induction rest generalizing i t start content with
  | nil =>
    simp only [extractLoop, List.flatMap_cons, List.flatMap_nil,
      sectionContentLines_mkSection _ _ _ _ hcl, keptLines, List.map_nil,
      List.filter_nil, List.append_nil]
  | cons line rest ih =>
    have hnl' : ∀ l ∈ rest, '\n' ∉ l := fun l hl => hnl l (List.mem_cons_of_mem _ hl)
    by_cases hh : section_pattern_match (pyStripL line) = true
    · simp only [extractLoop, hh, if_true, List.flatMap_append, List.flatMap_cons,
        List.flatMap_nil, List.append_nil,
        sectionContentLines_mkSection _ _ _ _ hcl,
        ih (i + 1) (pyStripL line) i [] hnl' (by simp)]
      simp [keptLines, List.filter_cons, hh]
    · by_cases hb : (pyStripL line).isEmpty = true
      · have hb' : (!(pyStripL line).isEmpty) = false := by simp [hb]
        simp only [extractLoop, hh, Bool.false_eq_true, if_false, Option.isSome_some,
          Bool.true_and, hb', ih (i + 1) t start content hnl' hcl]
        have hemp : pyStripL line = [] := by simpa using hb
        simp [keptLines, List.filter_cons, hh, hemp]
      · have hb' : (!(pyStripL line).isEmpty) = true := by simp [hb]
        have hcl' : ∀ p ∈ content ++ [pyStripL line], CleanPiece p := by
          intro p hp
          rcases List.mem_append.mp hp with h | h
          · exact hcl p h
          · rcases List.mem_singleton.mp h with rfl
            exact cleanPiece_pyStripL line (hnl line (List.mem_cons_self _ _))
              (by simpa using hb)
        simp only [extractLoop, hh, Bool.false_eq_true, if_false, Option.isSome_some,
          Bool.true_and, hb', if_true,
          ih (i + 1) t start (content ++ [pyStripL line]) hnl' hcl']
        simp [keptLines, List.filter_cons, hh, hb]

/-- Scanning before any header: everything up to the first recognized
header contributes nothing, and the output's content lines are the
trimmed kept lines from the first header onward. -/
theorem extractLoop_none_content (n : Nat) (rest : List (List Char)) (i : Nat)
    (content : List (List Char))
    (hnl : ∀ l ∈ rest, '\n' ∉ l) :
    (extractLoop n rest i none content).flatMap sectionContentLines =
      (keptLines (afterFirstHeaderL rest)).map List.asString := by
  induction rest generalizing i content with
  | nil => simp [extractLoop, afterFirstHeaderL, keptLines]
  | cons line rest ih =>
    have hnl' : ∀ l ∈ rest, '\n' ∉ l := fun l hl => hnl l (List.mem_cons_of_mem _ hl)
    by_cases hh : section_pattern_match (pyStripL line) = true
    · simp only [extractLoop, hh, if_true, List.nil_append,
        extractLoop_some_content n rest (i + 1) (pyStripL line) i [] hnl' (by simp),
        List.map_nil]
      have hafter : afterFirstHeaderL (line :: rest) = line :: rest := by
        simp [afterFirstHeaderL, List.dropWhile_cons, hh]
      rw [hafter]
      simp [keptLines, List.filter_cons, hh]
    · have hafter : afterFirstHeaderL (line :: rest) = afterFirstHeaderL rest := by
        simp [afterFirstHeaderL, List.dropWhile_cons, hh]
      simp only [extractLoop, hh, Bool.false_eq_true, if_false, Option.isSome_none,
        Bool.false_and, ih (i + 1) content hnl', hafter]

/-- C3 counterexample: in the document "skills" newline "  python", the
section content line is the trimmed "python", while the claim demands
the original line "  python" (leading spaces preserved); the
concatenated content therefore differs from the claimed original-line
reconstruction even though the document has a recognized header. -/
theorem claim3_counterexample :
    (extract_sections "skills\n  python").flatMap sectionContentLines ≠
      (claimReconstruction (splitLines "skills\n  python".data)).map List.asString ∧
    ∃ l ∈ splitLines "skills\n  python".data,
      section_pattern_match (pyStripL l) = true := by
  constructor
  · decide
  · decide

/-- C3 (amended): for every document with at least one recognized header
line, concatenating the content lines of all extracted sections, in
order, yields exactly the WHITESPACE-TRIMMED forms of the document's
non-blank, non-header lines from the first recognized header onward, in
their original order. -/
theorem claim3_reconstruction (text : String)
    (_hh : ∃ l ∈ splitLines text.data, section_pattern_match (pyStripL l) = true) :
    (extract_sections text).flatMap sectionContentLines =
      (keptLines (afterFirstHeaderL (splitLines text.data))).map List.asString := by
  unfold extract_sections
  exact extractLoop_none_content _ _ 0 [] (fun l hm => splitLines_nl_free text.data l hm)

/-- C3 witness: a concrete document with headers, blank lines and
indented content reconstructs to its trimmed kept lines. -/
theorem claim3_witness :
    (extract_sections "skills\njava\n\n  python\neducation\nBSc").flatMap sectionContentLines =
      (keptLines (afterFirstHeaderL (splitLines "skills\njava\n\n  python\neducation\nBSc".data))).map
        List.asString :=
  claim3_reconstruction "skills\njava\n\n  python\neducation\nBSc" (by decide)
